import Mathlib

/-!
Verification of the collaborative-drawing server core: session registry,
hook dispatcher (middleware manager), stroke ingest pipeline, rate-limiter
plugin, and the client reconnection protocol.  Every definition is a shallow
embedding of the corresponding TypeScript source; timestamps produced by
`Date.now()` are modelled as explicit `Nat` arguments threaded through each
call.
-/

namespace CollabDraw

/-- A canvas point (`shared/types.ts`, `Point`). -/
structure Point where
  x : Int
  y : Int
deriving DecidableEq

/-- A stroke (`shared/types.ts`, `Stroke`).  Optional fields of the wire
format are `Option`; `serverTimestamp` is `none` until the registry stamps
the stroke. -/
structure Stroke where
  id : String
  userId : String
  sessionId : Option String := none
  serverTimestamp : Option Nat := none
  tool : String
  color : Option String := none
  lineWidth : Option Nat := none
  points : List Point := []
deriving DecidableEq

/-- The timestamp a stroke is ordered by: `s.serverTimestamp || 0` in the
source (an unstamped stroke counts as time 0). -/
def tsOf (s : Stroke) : Nat :=
  s.serverTimestamp.getD 0

/-- A session (`shared/types.ts`, `Session`): ordered stroke history plus a
membership set (modelled as a duplicate-free insertion-ordered list). -/
structure Session where
  id : String
  strokes : List Stroke
  users : List String
  createdAt : Nat
  lastActivity : Nat
deriving DecidableEq

/-- Association-list lookup, the model of `Map.get`: the value at the first
matching key. -/
def assocLookup {α : Type} : List (String × α) → String → Option α
  | [], _ => none
  | e :: rest, k => if e.1 = k then some e.2 else assocLookup rest k

/-- Association-list update of every entry at a key, the model of
`Map.set` on a key that is already present (the binding keeps its
position). -/
def assocUpdate {α : Type} (l : List (String × α)) (k : String) (f : α → α) :
    List (String × α) :=
  l.map (fun e => if e.1 = k then (e.1, f e.2) else e)

/-- The session registry (`server/core/SessionStore.ts`): a `Map` from
session id to session, modelled as an insertion-ordered association list. -/
structure SessionStore where
  sessions : List (String × Session)
deriving DecidableEq

/-- `SessionStore.get`: non-throwing lookup (`null` becomes `none`). -/
def SessionStore.get (st : SessionStore) (sid : String) : Option Session :=
  assocLookup st.sessions sid

/-- Result of `SessionStore.create` as observed by its caller: the created
session, or the message of the thrown duplicate-session error. -/
inductive CreateResult
  | ok (s : Session)
  | err (msg : String)
deriving DecidableEq

/-- The empty session `create` installs: empty history, no users, creation
and last-activity time both `Date.now()`. -/
def newSession (sid : String) (now : Nat) : Session :=
  { id := sid, strokes := [], users := [], createdAt := now, lastActivity := now }

/-- `SessionStore.create`: fails (throwing, hence leaving the map unchanged)
if the id exists, otherwise inserts an empty session stamped with the
current time and returns it. -/
def SessionStore.create (st : SessionStore) (sid : String) (now : Nat) :
    CreateResult × SessionStore :=
  if (st.get sid).isSome then
    (.err ("Session already exists: " ++ sid), st)
  else
    (.ok (newSession sid now), ⟨st.sessions ++ [(sid, newSession sid now)]⟩)

/-- `SessionStore.addStroke`: throws if the session is absent; otherwise
stamps `stroke.serverTimestamp = Date.now()`, appends the stroke to the
session history and updates `lastActivity`. -/
def SessionStore.addStroke (st : SessionStore) (sid : String) (s : Stroke)
    (now : Nat) : Except String SessionStore :=
  match st.get sid with
  | none => .error ("Session not found: " ++ sid)
  | some _ =>
      .ok ⟨assocUpdate st.sessions sid (fun sess =>
        { sess with
            strokes := sess.strokes ++ [{ s with serverTimestamp := some now }],
            lastActivity := now })⟩

/-- `SessionStore.getStrokesAfter`: strokes of the session whose timestamp
strictly exceeds the watermark, in history order; an absent session yields
`[]`. -/
def SessionStore.getStrokesAfter (st : SessionStore) (sid : String) (t : Nat) :
    List Stroke :=
  match st.get sid with
  | none => []
  | some sess => sess.strokes.filter (fun s => decide (t < tsOf s))

/-- `SessionStore.addUser`: membership insert; a no-op if the session is
absent. -/
def SessionStore.addUser (st : SessionStore) (sid uid : String) : SessionStore :=
  match st.get sid with
  | none => st
  | some _ =>
      ⟨assocUpdate st.sessions sid (fun sess =>
        { sess with users := if uid ∈ sess.users then sess.users else sess.users ++ [uid] })⟩

/-- `SessionStore.removeUser`: membership delete; a no-op if the session is
absent. -/
def SessionStore.removeUser (st : SessionStore) (sid uid : String) : SessionStore :=
  match st.get sid with
  | none => st
  | some _ =>
      ⟨assocUpdate st.sessions sid (fun sess =>
        { sess with users := sess.users.filter (fun u => decide ¬(u = uid)) })⟩

/-- `SessionStore.delete`: removes the binding. -/
def SessionStore.deleteSession (st : SessionStore) (sid : String) : SessionStore :=
  ⟨st.sessions.filter (fun e => decide ¬(e.1 = sid))⟩

/-- The stroke history of a session, `[]` when the session is absent. -/
def sessionHist (st : SessionStore) (sid : String) : List Stroke :=
  match st.get sid with
  | none => []
  | some sess => sess.strokes

/-- The store holding no sessions (a freshly constructed `SessionStore`). -/
def emptyStore : SessionStore := ⟨[]⟩

/-! ### Hook dispatcher (`server/core/MiddlewareManager.ts`) -/

/-- The mutable context threaded through one hook invocation
(`shared/types.ts`, `MiddlewareContext`). -/
structure MiddlewareContext where
  stroke : Option Stroke := none
  userId : String
  sessionId : String
  session : Option Session := none
  stopped : Bool := false
  error : Option String := none
deriving DecidableEq

/-- What one plugin invocation does to the context: returns normally with
the context as mutated, or raises with the context as mutated up to the
throw plus the thrown error message. -/
inductive HandlerResult
  | ok (c : MiddlewareContext)
  | thrown (c : MiddlewareContext) (msg : String)

/-- A plugin function attached to a hook (`MiddlewarePlugin`). -/
abbrev Handler := MiddlewareContext → HandlerResult

/-- `MiddlewareManager.execute` over one hook's ordered chain: run each
handler in registration order; after each, stop if `context.stopped`; if a
handler raises, record the message on the context, set `stopped`, and stop
the chain — never re-raising to the caller. -/
def execute : List Handler → MiddlewareContext → MiddlewareContext
  | [], c => c
  | h :: hs, c =>
      match h c with
      | .ok c' => if c'.stopped then c' else execute hs c'
      | .thrown c' msg => { c' with error := some msg, stopped := true }

/-- The closed set of extension points (`HookName`). -/
inductive HookName
  | strokeBefore
  | strokeAfter
  | userJoin
  | sessionCreate
deriving DecidableEq

/-- The dispatcher state: one ordered chain per extension point
(`MiddlewareManager.hooks`).  The hook record is total over the closed
`HookName` set, so the dynamic invalid-hook check of `use`/`execute` cannot
fire for well-typed callers. -/
structure MiddlewareManager where
  strokeBefore : List Handler := []
  strokeAfter : List Handler := []
  userJoin : List Handler := []
  sessionCreate : List Handler := []

/-- The chain registered at a hook. -/
def MiddlewareManager.hooksOf (m : MiddlewareManager) : HookName → List Handler
  | .strokeBefore => m.strokeBefore
  | .strokeAfter => m.strokeAfter
  | .userJoin => m.userJoin
  | .sessionCreate => m.sessionCreate

/-- `MiddlewareManager.use`: append a plugin to a hook's chain. -/
def MiddlewareManager.use (m : MiddlewareManager) : HookName → Handler → MiddlewareManager
  | .strokeBefore, f => { m with strokeBefore := m.strokeBefore ++ [f] }
  | .strokeAfter, f => { m with strokeAfter := m.strokeAfter ++ [f] }
  | .userJoin, f => { m with userJoin := m.userJoin ++ [f] }
  | .sessionCreate, f => { m with sessionCreate := m.sessionCreate ++ [f] }

/-- `MiddlewareManager.execute` at a named hook. -/
def MiddlewareManager.executeHook (m : MiddlewareManager) (hk : HookName)
    (c : MiddlewareContext) : MiddlewareContext :=
  execute (m.hooksOf hk) c

/-- `MiddlewareManager.getPluginCount`. -/
def MiddlewareManager.getPluginCount (m : MiddlewareManager) (hk : HookName) : Nat :=
  (m.hooksOf hk).length

/-- A prefix of a chain that completes without stopping and without a
fault: `some` of the context it hands to the next handler. -/
def runChainOk : List Handler → MiddlewareContext → Option MiddlewareContext
  | [], c => some c
  | h :: hs, c =>
      match h c with
      | .ok c' => if c'.stopped then none else runChainOk hs c'
      | .thrown _ _ => none

/-! ### Validation plugin (`server/plugins/validateStroke.ts`) -/

/-- A hexadecimal digit as accepted by the color pattern. -/
def isHexDigit (c : Char) : Bool :=
  (decide ('0' ≤ c) && decide (c ≤ '9'))
    || (decide ('A' ≤ c) && decide (c ≤ 'F'))
    || (decide ('a' ≤ c) && decide (c ≤ 'f'))

/-- The color pattern: a hash sign followed by exactly six hex digits. -/
def isHexColor (s : String) : Bool :=
  match s.toList with
  | '#' :: rest => decide (rest.length = 6) && rest.all isHexDigit
  | _ => false

/-- The `fail` helper of the validation plugin: set `stopped` and record
the message. -/
def failCtx (ctx : MiddlewareContext) (msg : String) : MiddlewareContext :=
  { ctx with stopped := true, error := some msg }

/-- The verdict of `validateStroke` on a present stroke: `some` rejection
message for the first failing check, `none` when validation passes.  An
empty string is falsy in the source, so an empty `id` or `tool` fails the
required-field checks, while an empty `color` or a zero `lineWidth` skips
the corresponding optional check. -/
def valVerdict (s : Stroke) : Option String :=
  if s.id = "" then some "Stroke missing ID"
  else if s.tool = "" then some "Stroke missing tool type"
  else if s.points.length < 2 then some "Stroke must have at least 2 points"
  else if s.points.any (fun p =>
      decide (p.x < 0) || decide (p.x > 10000)
        || decide (p.y < 0) || decide (p.y > 10000)) then
    some "Point coordinates must be between 0 and 10000"
  else if (match s.color with
      | some c => !(decide (c = "")) && !(isHexColor c)
      | none => false) then
    some "Invalid color format (must be hex: #RRGGBB)"
  else if (match s.lineWidth with
      | some w => !(decide (w = 0)) && (decide (w < 1) || decide (w > 50))
      | none => false) then
    some "Line width must be between 1 and 50"
  else none

/-- The validation plugin: reject a missing stroke, otherwise apply the
verdict; never raises. -/
def validateStroke : Handler := fun ctx =>
  match ctx.stroke with
  | none => .ok (failCtx ctx "No stroke provided")
  | some s =>
      match valVerdict s with
      | some msg => .ok (failCtx ctx msg)
      | none => .ok ctx

/-! ### Rate-limiting plugin (`server/plugins/rateLimitCheck.ts`) -/

/-- `RATE_LIMIT_WINDOW`: one second. -/
def RATE_LIMIT_WINDOW : Nat := 1000

/-- `MAX_STROKES_PER_WINDOW`: one hundred strokes per window. -/
def MAX_STROKES_PER_WINDOW : Nat := 100

/-- The module-level `userStrokeCounts` map from user id to the recorded
event instants. -/
structure RateLimitState where
  userStrokeCounts : List (String × List Nat)
deriving DecidableEq

/-- A fresh rate-limit map. -/
def emptyRL : RateLimitState := ⟨[]⟩

/-- `Map.set`: replace the binding in place if the key exists, else append
it. -/
def setCount (rl : RateLimitState) (uid : String) (v : List Nat) : RateLimitState :=
  if (assocLookup rl.userStrokeCounts uid).isSome then
    ⟨assocUpdate rl.userStrokeCounts uid (fun _ => v)⟩
  else
    ⟨rl.userStrokeCounts ++ [(uid, v)]⟩

/-- The instants still inside the sliding window at `now`
(`now - timestamp < RATE_LIMIT_WINDOW`; `Nat` subtraction truncates at 0
exactly as the JavaScript comparison keeps not-yet-reached instants). -/
def recentOf (entries : List Nat) (now : Nat) : List Nat :=
  entries.filter (fun ts => decide (now - ts < RATE_LIMIT_WINDOW))

/-- `rateLimitCheck`: drop expired instants from the user's sequence for
the count; at or above the limit, stop the context with the rejection
message and leave the stored map untouched; otherwise record the filtered
sequence plus the current instant. -/
def rateLimitCheck (rl : RateLimitState) (ctx : MiddlewareContext) (now : Nat) :
    RateLimitState × MiddlewareContext :=
  let userStrokes := (assocLookup rl.userStrokeCounts ctx.userId).getD []
  let recent := recentOf userStrokes now
  if MAX_STROKES_PER_WINDOW ≤ recent.length then
    (rl, { ctx with stopped := true, error := some "Rate limit exceeded. Please slow down." })
  else
    (setCount rl ctx.userId (recent ++ [now]), ctx)

/-- The rate-limit plugin as the dispatcher sees it at a fixed map state
and clock reading: the context transformation of `rateLimitCheck`. -/
def rateLimitHandler (rl : RateLimitState) (now : Nat) : Handler :=
  fun ctx => .ok (rateLimitCheck rl ctx now).2

/-- A probe context for exercising the rate limiter as a single user. -/
def rlProbeCtx : MiddlewareContext := { userId := "userA", sessionId := "abc123" }

/-- Run a sequence of `stroke:before` invocations of the rate limiter for
one user at the given instants, recording each invocation's `stopped`
flag. -/
def runCalls (rl : RateLimitState) : List Nat → RateLimitState × List Bool
  | [] => (rl, [])
  | t :: ts =>
      let step := rateLimitCheck rl rlProbeCtx t
      let rest := runCalls step.1 ts
      (rest.1, step.2.stopped :: rest.2)

/-! ### Stroke ingest pipeline (the `STROKE` handler of
`setupSocketHandlers`) -/

/-- An outbound message of one stroke-event invocation: an error on the
sender's private error channel (`socket.emit`), or a stroke broadcast to
every member of a session including the sender (`io.to(session).emit`). -/
inductive Emission
  | errorTo (userId : String) (msg : String)
  | strokeBroadcast (sessionId : String) (s : Stroke)
deriving DecidableEq

/-- Per-connection server state: the server-assigned user identity and the
session the connection has created or joined, if any. -/
structure Connection where
  userId : String
  currentSession : Option String := none
deriving DecidableEq

/-- The sanitisation `{...data, userId, sessionId}`: the connection's
identity and session overwrite whatever the client sent; the client's
`serverTimestamp` field survives until `addStroke` restamps it. -/
def sanitize (conn : Connection) (sid : String) (d : Stroke) : Stroke :=
  { d with userId := conn.userId, sessionId := some sid }

/-- The `HookContext` the stroke handler builds for the candidate stroke. -/
def initCtx (conn : Connection) (sid : String) (d : Stroke) : MiddlewareContext :=
  { stroke := some (sanitize conn sid d), userId := conn.userId, sessionId := sid }

/-- The `STROKE` event handler: reject when not in a session; sanitise the
payload; run `stroke:before` and on `stopped` emit the context's error to
the sender only; otherwise persist through `addStroke` (which assigns the
authoritative timestamp), broadcast the stamped stroke to the session, and
run `stroke:after`, whose outcome the pipeline discards (`execute` is total,
so the surrounding catch fires only for the `addStroke` throw). -/
def handleStroke (mw : MiddlewareManager) (conn : Connection) (st : SessionStore)
    (d : Stroke) (now : Nat) : SessionStore × List Emission :=
  match conn.currentSession with
  | none => (st, [.errorTo conn.userId "Not in a session"])
  | some sid =>
      let ctx1 := execute mw.strokeBefore (initCtx conn sid d)
      if ctx1.stopped then
        (st, [.errorTo conn.userId (ctx1.error.getD "Stroke rejected by middleware")])
      else
        match st.addStroke sid (sanitize conn sid d) now with
        | .error msg => (st, [.errorTo conn.userId msg])
        | .ok st2 =>
            let _ctxA := execute mw.strokeAfter ctx1
            (st2, [.strokeBroadcast sid
              { sanitize conn sid d with serverTimestamp := some now }])

/-- The `stroke:before` chain of the shipped plugin configuration
(`server/config/plugins.ts`): validation, then rate limiting; the
`stroke:after` chain is left as a parameter since its members are
side-effecting only. -/
def standardManager (rl : RateLimitState) (now : Nat) (after : List Handler) :
    MiddlewareManager :=
  { strokeBefore := [validateStroke, rateLimitHandler rl now],
    strokeAfter := after }

/-- A stroke with its `serverTimestamp` field cleared: the part of a stroke
every field of which the validation verdict may inspect. -/
def stripTs (s : Stroke) : Stroke :=
  { s with serverTimestamp := none }

/-! ### Session-store operation sequences (for the ordering invariant) -/

/-- One mutating registry call, paired at run time with the `Date.now()`
reading of that call. -/
inductive StoreOp
  | createOp (sid : String)
  | addStrokeOp (sid : String) (s : Stroke)
  | addUserOp (sid uid : String)
  | removeUserOp (sid uid : String)
  | deleteOp (sid : String)

/-- Apply one registry call at one clock reading (a failed call leaves the
store unchanged, as the corresponding throw does). -/
def applyOp (st : SessionStore) : StoreOp → Nat → SessionStore
  | .createOp sid, now => (st.create sid now).2
  | .addStrokeOp sid s, now =>
      match st.addStroke sid s now with
      | .ok st2 => st2
      | .error _ => st
  | .addUserOp sid uid, _ => st.addUser sid uid
  | .removeUserOp sid uid, _ => st.removeUser sid uid
  | .deleteOp sid, _ => st.deleteSession sid

/-- Run a sequence of registry calls with their clock readings. -/
def runOps (st : SessionStore) : List (StoreOp × Nat) → SessionStore
  | [] => st
  | (op, t) :: rest => runOps (applyOp st op t) rest

/-- A history is sorted by non-decreasing authoritative timestamp. -/
def histSorted (l : List Stroke) : Prop :=
  l.Pairwise (fun a b => tsOf a ≤ tsOf b)

/-- Invariant tying a store to a clock lower bound: every session's history
is sorted and all of its timestamps are at most `t`. -/
def storeInv (st : SessionStore) (t : Nat) : Prop :=
  ∀ e ∈ st.sessions, histSorted e.2.strokes ∧ ∀ s ∈ e.2.strokes, tsOf s ≤ t

/-! ### Client: canvas dedup and the reconnection protocol
(`client/core/CanvasController.ts`, `client/core/WebSocketClient.ts`) -/

/-- Stable insertion into a timestamp-sorted list (the model of the stable
`Array.prototype.sort` by `serverTimestamp`). -/
def insertByTs (s : Stroke) : List Stroke → List Stroke
  | [] => [s]
  | x :: xs => if tsOf x < tsOf s then x :: insertByTs s xs else s :: x :: xs

/-- Sort strokes by ascending authoritative timestamp, stably. -/
def sortByTs (l : List Stroke) : List Stroke :=
  l.foldr insertByTs []

/-- `CanvasController.addStroke`: drop the stroke if its id is already on
the canvas, otherwise append it and re-sort by server timestamp. -/
def canvasAddStroke (cs : List Stroke) (s : Stroke) : List Stroke :=
  if cs.any (fun x => decide (x.id = s.id)) then cs
  else sortByTs (cs ++ [s])

/-- Client connection state (`WebSocketClient`): the rendered canvas (via
`CanvasController`), the offline queue, the watermark
(`lastKnownTimestamp`), and the active session. -/
structure WSClient where
  canvas : List Stroke
  offlineQueue : List Stroke
  lastKnownTimestamp : Nat
  currentSession : Option String
deriving DecidableEq

/-- `WebSocketClient.handleReconnection` at clock reading `now`: nothing to
do without an active session; rejoining an absent session fails and the
catch abandons the attempt; on a successful rejoin, `joinSession`
overwrites `lastKnownTimestamp` with `Date.now()`, `requestSync` then
carries that overwritten value, every returned stroke is applied to the
canvas through the deduplicating `addStroke`, and finally the offline queue
is transmitted in order and cleared.  The returned list is the sequence of
strokes sent to the server. -/
def handleReconnection (c : WSClient) (st : SessionStore) (now : Nat) :
    WSClient × List Stroke :=
  match c.currentSession with
  | none => (c, [])
  | some sid =>
      match st.get sid with
      | none => (c, [])
      | some _ =>
          let missed := st.getStrokesAfter sid now
          let canvas2 := missed.foldl canvasAddStroke c.canvas
          ({ c with
              canvas := canvas2,
              offlineQueue := [],
              lastKnownTimestamp := now },
            c.offlineQueue)

/-! ### Demonstration values used by the witnesses -/

/-- A demonstration plugin that always raises. -/
def demoThrowHandler : Handler := fun c => .thrown c "handler exploded"

/-- A demonstration plugin that passes the context through untouched. -/
def demoPassHandler : Handler := fun c => .ok c

/-- A demonstration plugin that vetoes the event with a message. -/
def demoStopHandler : Handler := fun c =>
  .ok { c with stopped := true, error := some "vetoed by plugin" }

/-- A demonstration context for dispatcher runs. -/
def demoCtx : MiddlewareContext := { userId := "userA", sessionId := "abc123" }

/-- A demonstration connection already in session `"abc123"`. -/
def demoConn : Connection := { userId := "userA", currentSession := some "abc123" }

/-- A demonstration two-point pen stroke as a client submits it. -/
def demoStroke : Stroke :=
  { id := "st1", userId := "spoofed", tool := "pen",
    points := [{ x := 1, y := 1 }, { x := 2, y := 2 }] }

/-- The demonstration stroke with spoofed client-controlled fields. -/
def demoStrokeSpoofed : Stroke :=
  { demoStroke with
      userId := "someoneElse", sessionId := some "otherSession",
      serverTimestamp := some 99999 }

/-- A store holding the single demonstration session `"abc123"`. -/
def demoStore : SessionStore := (emptyStore.create "abc123" 0).2

/-- A demonstration registry call sequence with strictly increasing clock
readings. -/
def demoOps : List (StoreOp × Nat) :=
  [(.createOp "abc123", 1),
   (.addStrokeOp "abc123" demoStroke, 2),
   (.addStrokeOp "abc123" demoStroke, 5),
   (.addUserOp "abc123" "userA", 6),
   (.addStrokeOp "abc123" demoStroke, 9)]

/-- The server-side stroke a disconnected client misses: stamped at 10. -/
def missedStroke : Stroke :=
  { id := "m1", userId := "userB", sessionId := some "abc123",
    serverTimestamp := some 10, tool := "pen",
    points := [{ x := 3, y := 3 }, { x := 4, y := 4 }] }

/-- The server store at reconnection time: session `"abc123"` whose history
holds the missed stroke. -/
def reconnectStore : SessionStore :=
  ⟨[("abc123",
    { id := "abc123", strokes := [missedStroke], users := ["userB"],
      createdAt := 0, lastActivity := 10 })]⟩

/-- First locally queued stroke. -/
def queued1 : Stroke :=
  { id := "q1", userId := "userA", tool := "pen",
    points := [{ x := 5, y := 5 }, { x := 6, y := 6 }] }

/-- Second locally queued stroke. -/
def queued2 : Stroke :=
  { id := "q2", userId := "userA", tool := "pen",
    points := [{ x := 7, y := 7 }, { x := 8, y := 8 }] }

/-- The reconnecting client: watermark 5, offline queue `[queued1, queued2]`,
still pointing at session `"abc123"`. -/
def reconnectClient : WSClient :=
  { canvas := [], offlineQueue := [queued1, queued2],
    lastKnownTimestamp := 5, currentSession := some "abc123" }

end CollabDraw

namespace CollabDraw

/-! ## Theorems -/

/-! ### Basic lemmas about the association-list map -/

theorem assocLookup_append_self {α : Type} (l : List (String × α)) (k : String)
    (v : α) (h : assocLookup l k = none) :
    assocLookup (l ++ [(k, v)]) k = some v := by
  induction l with
  | nil => simp [assocLookup]
  | cons e rest ih =>
      by_cases he : e.1 = k
      · simp [assocLookup, he] at h
      · simp only [assocLookup, he, if_neg, List.cons_append] at h ⊢
        exact ih h

theorem assocLookup_update_self {α : Type} (l : List (String × α)) (k : String)
    (f : α → α) (v : α) (h : assocLookup l k = some v) :
    assocLookup (assocUpdate l k f) k = some (f v) := by
  induction l with
  | nil => simp [assocLookup] at h
  | cons e rest ih =>
      by_cases he : e.1 = k
      · simp [assocLookup, assocUpdate, he] at h ⊢
        simp [h]
      · simp only [assocLookup, assocUpdate, he, if_neg, List.map_cons] at h ⊢
        simpa [assocUpdate, he] using ih h

theorem assocLookup_update_other {α : Type} (l : List (String × α)) (k k' : String)
    (f : α → α) (hne : ¬ k' = k) :
    assocLookup (assocUpdate l k f) k' = assocLookup l k' := by
  have hkk : ¬ k = k' := fun h => hne h.symm
  induction l with
  | nil => simp [assocLookup, assocUpdate]
  | cons e rest ih =>
      by_cases he : e.1 = k
      · simpa [assocLookup, assocUpdate, he, hkk] using ih
      · by_cases he' : e.1 = k'
        · simp [assocLookup, assocUpdate, he, he', hne]
        · simpa [assocLookup, assocUpdate, he, he'] using ih

theorem execute_append_of_runChainOk (hs : List Handler) (rest : List Handler)
    (c c' : MiddlewareContext) (h : runChainOk hs c = some c') :
    execute (hs ++ rest) c = execute rest c' := by
  induction hs generalizing c with
  | nil =>
      simp [runChainOk] at h
      simp [h]
  | cons hd tl ih =>
      simp only [runChainOk] at h
      cases hh : hd c with
      | ok c1 =>
          rw [hh] at h
          by_cases hstop : c1.stopped
          · simp [hstop] at h
          · simp only [hstop, if_neg, Bool.false_eq_true, not_false_eq_true,
              if_false] at h
            simp only [List.cons_append, execute, hh, hstop, Bool.false_eq_true,
              if_false]
            exact ih c1 h
      | thrown c1 m =>
          rw [hh] at h
          cases h

/-! ### C2: getStrokesAfter returns exactly the strokes past the watermark -/

/-- C2.  `getStrokesAfter(id, t)` returns exactly the strokes of session
`id` whose authoritative timestamp strictly exceeds `t` (an unstamped
stroke counting as time 0, per `s.serverTimestamp || 0`), in the original
insertion order (the result is a sublist of the history, with exact
multiplicity); an absent session yields `[]` rather than an error.  The
function is a pure read — it takes the store and watermark and returns a
value without modifying the store — so repeated calls with the same state
and watermark agree definitionally. -/
theorem getStrokesAfter_exact (st : SessionStore) (sid : String) (t : Nat) :
    (st.getStrokesAfter sid t).Sublist (sessionHist st sid)
    ∧ (∀ s : Stroke,
        s ∈ st.getStrokesAfter sid t ↔ s ∈ sessionHist st sid ∧ t < tsOf s)
    ∧ (∀ s : Stroke,
        (st.getStrokesAfter sid t).count s
          = if t < tsOf s then (sessionHist st sid).count s else 0)
    ∧ (st.get sid = none → st.getStrokesAfter sid t = []) := by
  unfold SessionStore.getStrokesAfter sessionHist
  cases h : st.get sid with
  | none =>
      refine ⟨List.Sublist.refl _, ?_, ?_, fun _ => rfl⟩
      · intro s; simp
      · intro s; simp
  | some sess =>
      refine ⟨List.filter_sublist _, ?_, ?_, ?_⟩
      · intro s
        simp [List.mem_filter]
      · intro s
        by_cases hts : t < tsOf s
        · simp [List.count_filter, hts]
        · simp only [if_neg hts]
          rw [List.count_eq_zero]
          intro hmem
          exact hts (by simpa using (List.mem_filter.mp hmem).2)
      · intro hnone; cases hnone

/-- Witness for C2 at a concrete store: the absent-session branch. -/
theorem getStrokesAfter_exact_witness :
    emptyStore.getStrokesAfter "abc" 5 = [] :=
  (getStrokesAfter_exact emptyStore "abc" 5).2.2.2 rfl

/-! ### C5: a handler fault is contained by the dispatcher -/

/-- C5.  For every hook point and registered chain, if the handlers before
`h` all complete without stopping and `h` raises with message `m`, then
`execute` catches the fault: it records the message on the context, sets
`stopped := true`, skips every remaining handler (`post` does not appear in
the result), and returns the stopped, errored context normally — the
exception is never propagated (`executeHook` is a total function into
contexts). -/
theorem execute_catches_handler_fault (mw : MiddlewareManager) (hk : HookName)
    (pre post : List Handler) (h : Handler) (c c' cp : MiddlewareContext)
    (m : String)
    (hhooks : mw.hooksOf hk = pre ++ h :: post)
    (hchain : runChainOk pre c = some c')
    (hthrow : h c' = .thrown cp m) :
    mw.executeHook hk c = { cp with error := some m, stopped := true } := by
  unfold MiddlewareManager.executeHook
  rw [hhooks, execute_append_of_runChainOk pre (h :: post) c c' hchain]
  simp [execute, hthrow]

/-- Witness for C5: a two-handler chain whose second handler raises. -/
theorem execute_catches_handler_fault_witness :
    (MiddlewareManager.executeHook
        { strokeBefore := [demoPassHandler, demoThrowHandler] }
        HookName.strokeBefore demoCtx)
      = { demoCtx with error := some "handler exploded", stopped := true } :=
  execute_catches_handler_fault
    { strokeBefore := [demoPassHandler, demoThrowHandler] }
    HookName.strokeBefore [demoPassHandler] [] demoThrowHandler
    demoCtx demoCtx demoCtx "handler exploded" rfl rfl rfl

/-! ### C1: a stopped before-chain rejects without side effects -/

/-- C1.  For a stroke event on a connection that is in a session, if the
`stroke:before` chain leaves the context stopped (whether a handler set the
flag or the dispatcher caught a fault), the pipeline returns the store
unchanged — nothing is persisted — and emits exactly one message: an error
on the sender's private channel carrying the context's error (with the
source's fallback text when no message was recorded); in particular no
stroke broadcast reaches any session member. -/
theorem strokeBefore_stop_rejects_without_effects (mw : MiddlewareManager)
    (conn : Connection) (st : SessionStore) (d : Stroke) (now : Nat) (sid : String)
    (hs : conn.currentSession = some sid)
    (hstop : (execute mw.strokeBefore (initCtx conn sid d)).stopped = true) :
    handleStroke mw conn st d now
      = (st, [Emission.errorTo conn.userId
          ((execute mw.strokeBefore (initCtx conn sid d)).error.getD
            "Stroke rejected by middleware")]) := by
  unfold handleStroke
  rw [hs]
  simp [hstop]

/-- Witness for C1: a vetoing plugin rejects the demonstration stroke and
the store and emissions are exactly as claimed. -/
theorem strokeBefore_stop_rejects_without_effects_witness :
    handleStroke { strokeBefore := [demoStopHandler] } demoConn demoStore
        demoStroke 50
      = (demoStore, [Emission.errorTo "userA" "vetoed by plugin"]) :=
  strokeBefore_stop_rejects_without_effects
    { strokeBefore := [demoStopHandler] } demoConn demoStore demoStroke 50
    "abc123" rfl (by decide)

/-! ### C6: an after-hook fault cannot undo persistence or broadcast -/

/-- C6.  Once a stroke has passed `stroke:before` and the session exists,
a fault raised by any `stroke:after` handler (here: the chain splits as
`pre ++ h :: post` with `pre` completing and `h` raising) leaves the
outcome exactly what it is with no after-hooks at all: the store still
contains the persisted, stamped stroke appended to the session history, the
emissions are exactly the one broadcast of the stamped stroke, and no error
message is sent to any client. -/
theorem after_hook_fault_is_advisory (mw : MiddlewareManager) (conn : Connection)
    (st : SessionStore) (d : Stroke) (now : Nat) (sid : String) (sess : Session)
    (pre post : List Handler) (h : Handler) (c' cp : MiddlewareContext)
    (m : String)
    (hs : conn.currentSession = some sid)
    (hsess : st.get sid = some sess)
    (hpass : (execute mw.strokeBefore (initCtx conn sid d)).stopped = false)
    (hafter : mw.strokeAfter = pre ++ h :: post)
    (hchain : runChainOk pre (execute mw.strokeBefore (initCtx conn sid d)) = some c')
    (hthrow : h c' = .thrown cp m) :
    (handleStroke mw conn st d now).2
        = [Emission.strokeBroadcast sid
            { sanitize conn sid d with serverTimestamp := some now }]
      ∧ (handleStroke mw conn st d now).1.get sid
        = some { sess with
            strokes := sess.strokes
              ++ [{ sanitize conn sid d with serverTimestamp := some now }],
            lastActivity := now } := by
  have hsess' : assocLookup st.sessions sid = some sess := hsess
  have hlook := assocLookup_update_self st.sessions sid
    (fun s0 =>
      { s0 with
          strokes := s0.strokes
            ++ [{ sanitize conn sid d with serverTimestamp := some now }],
          lastActivity := now }) sess hsess'
  unfold handleStroke
  rw [hs]
  simp [hpass, SessionStore.addStroke, hsess', SessionStore.get, hlook]

/-- Witness for C6: with no before-hooks and a raising after-hook, the
demonstration stroke is persisted and broadcast exactly once. -/
theorem after_hook_fault_is_advisory_witness :
    (handleStroke { strokeAfter := [demoThrowHandler] } demoConn demoStore
        demoStroke 50).2
      = [Emission.strokeBroadcast "abc123"
          { sanitize demoConn "abc123" demoStroke with serverTimestamp := some 50 }]
    ∧ (handleStroke { strokeAfter := [demoThrowHandler] } demoConn demoStore
        demoStroke 50).1.get "abc123"
      = some { newSession "abc123" 0 with
          strokes := [{ sanitize demoConn "abc123" demoStroke with
            serverTimestamp := some 50 }],
          lastActivity := 50 } :=
  after_hook_fault_is_advisory { strokeAfter := [demoThrowHandler] }
    demoConn demoStore demoStroke 50 "abc123" (newSession "abc123" 0)
    [] [] demoThrowHandler (initCtx demoConn "abc123" demoStroke)
    (initCtx demoConn "abc123" demoStroke) "handler exploded"
    rfl (by decide) rfl rfl rfl rfl

/-! ### C10: a rate-limit rejection leaves the stored map untouched -/

/-- C10.  Whenever `rateLimitCheck` rejects — the user's stored instants
still inside the window number at least the limit — the per-user map is
returned exactly as it was: the new instant is not appended and the expired
instants dropped for the count are not removed from storage; only the
context's `stopped` and `error` fields change. -/
theorem rateLimit_reject_preserves_state (rl : RateLimitState)
    (ctx : MiddlewareContext) (now : Nat)
    (hfull : MAX_STROKES_PER_WINDOW
      ≤ (recentOf ((assocLookup rl.userStrokeCounts ctx.userId).getD []) now).length) :
    rateLimitCheck rl ctx now
      = (rl, { ctx with
          stopped := true,
          error := some "Rate limit exceeded. Please slow down." }) := by
  unfold rateLimitCheck
  simp [hfull]

/-- A saturated rate-limit map: one user with 100 recorded instants. -/
theorem rateLimit_reject_preserves_state_witness :
    rateLimitCheck ⟨[("userA", List.replicate 100 0)]⟩ rlProbeCtx 0
      = (⟨[("userA", List.replicate 100 0)]⟩,
         { rlProbeCtx with
             stopped := true,
             error := some "Rate limit exceeded. Please slow down." }) :=
  rateLimit_reject_preserves_state ⟨[("userA", List.replicate 100 0)]⟩
    rlProbeCtx 0 (by decide)

/-! ### C3: addStroke keeps every history sorted by assigned timestamp -/

theorem storeInv_mono {st : SessionStore} {t t' : Nat} (h : storeInv st t)
    (hle : t ≤ t') : storeInv st t' := by
  intro e he
  exact ⟨(h e he).1, fun s hs => le_trans ((h e he).2 s hs) hle⟩

theorem mem_assocUpdate {α : Type} {l : List (String × α)} {k : String}
    {f : α → α} {e' : String × α} (h : e' ∈ assocUpdate l k f) :
    ∃ e ∈ l, e' = if e.1 = k then (e.1, f e.2) else e := by
  unfold assocUpdate at h
  obtain ⟨e, he, heq⟩ := List.mem_map.mp h
  exact ⟨e, he, heq.symm⟩

theorem applyOp_inv {st : SessionStore} {t t' : Nat} (op : StoreOp)
    (hinv : storeInv st t) (hle : t ≤ t') : storeInv (applyOp st op t') t' := by
  have hmono := storeInv_mono hinv hle
  cases op with
  | createOp sid =>
      unfold applyOp SessionStore.create
      by_cases hex : (st.get sid).isSome
      · simpa [hex] using hmono
      · simp only [hex, if_false, Bool.false_eq_true]
        intro e he
        rcases List.mem_append.mp he with h1 | h2
        · exact hmono e h1
        · simp only [List.mem_singleton] at h2
          subst h2
          exact ⟨by simp [newSession, histSorted], by simp [newSession]⟩
  | addStrokeOp sid s =>
      unfold applyOp SessionStore.addStroke
      cases hget : st.get sid with
      | none => simpa [hget] using hmono
      | some sess =>
          simp only [hget]
          intro e he
          dsimp only at he
          obtain ⟨e0, he0, heq⟩ := mem_assocUpdate he
          by_cases hk : e0.1 = sid


          · rw [if_pos hk] at heq
            subst heq
            obtain ⟨hsorted, hbound⟩ := hinv e0 he0
            constructor
            · unfold histSorted at hsorted ⊢
              rw [List.pairwise_append]
              refine ⟨hsorted, by simp, ?_⟩
              intro a ha b hb
              simp only [List.mem_singleton] at hb
              subst hb
              simp only [tsOf, Option.getD_some]
              exact le_trans (hbound a ha) hle
            · intro s2 hs2
              rcases List.mem_append.mp hs2 with h1 | h2
              · exact le_trans (hbound s2 h1) hle
              · simp only [List.mem_singleton] at h2
                subst h2
                simp [tsOf]
          · rw [if_neg hk] at heq
            rw [heq]
            exact hmono e0 he0
  | addUserOp sid uid =>
      unfold applyOp SessionStore.addUser
      cases hget : st.get sid with
      | none => simpa [hget] using hmono
      | some sess =>
          simp only [hget]
          intro e he
          dsimp only at he
          obtain ⟨e0, he0, heq⟩ := mem_assocUpdate he
          by_cases hk : e0.1 = sid
          · rw [if_pos hk] at heq
            subst heq
            exact hmono e0 he0
          · rw [if_neg hk] at heq
            rw [heq]
            exact hmono e0 he0
  | removeUserOp sid uid =>
      unfold applyOp SessionStore.removeUser
      cases hget : st.get sid with
      | none => simpa [hget] using hmono
      | some sess =>
          simp only [hget]
          intro e he
          dsimp only at he
          obtain ⟨e0, he0, heq⟩ := mem_assocUpdate he
          by_cases hk : e0.1 = sid
          · rw [if_pos hk] at heq
            subst heq
            exact hmono e0 he0
          · rw [if_neg hk] at heq
            rw [heq]
            exact hmono e0 he0
  | deleteOp sid =>
      unfold applyOp SessionStore.deleteSession
      intro e he
      exact hmono e (List.mem_of_mem_filter he)

theorem runOps_inv (ops : List (StoreOp × Nat)) (st : SessionStore) (t0 : Nat)
    (hinv : storeInv st t0)
    (hmono : List.Chain' (· ≤ ·) (t0 :: ops.map Prod.snd)) :
    ∃ t1, storeInv (runOps st ops) t1 := by
  induction ops generalizing st t0 with
  | nil => exact ⟨t0, hinv⟩
  | cons p rest ih =>
      obtain ⟨op, t⟩ := p
      rw [List.map_cons] at hmono
      rw [List.chain'_cons] at hmono
      exact ih (applyOp st op t) t (applyOp_inv op hinv hmono.1) hmono.2

theorem assocLookup_mem {α : Type} (l : List (String × α)) (k : String) (v : α)
    (h : assocLookup l k = some v) : (k, v) ∈ l := by
  induction l with
  | nil => cases h
  | cons e rest ih =>
      unfold assocLookup at h
      by_cases he : e.1 = k
      · rw [if_pos he] at h
        injection h with h2
        have hekv : e = (k, v) := Prod.ext he h2
        rw [← hekv]
        exact List.mem_cons_self e rest
      · rw [if_neg he] at h
        exact List.mem_cons_of_mem e (ih h)

/-- C3.  Along any sequence of registry calls whose `Date.now()` readings
are non-decreasing in call order (the wall clock does not run backwards),
every session's stroke history in the resulting store is sorted by
non-decreasing `serverTimestamp`; in particular two strokes added
back-to-back never end up with the second stamped before the first. -/
theorem addStroke_histories_sorted (ops : List (StoreOp × Nat))
    (hmono : List.Chain' (· ≤ ·) (ops.map Prod.snd)) :
    ∀ sid : String, histSorted (sessionHist (runOps emptyStore ops) sid) := by
  have h0 : storeInv emptyStore 0 := by
    intro e he
    cases he
  have hch : List.Chain' (· ≤ ·) (0 :: ops.map Prod.snd) := by
    cases hops : ops.map Prod.snd with
    | nil => simp
    | cons a l =>
        rw [List.chain'_cons]
        exact ⟨Nat.zero_le a, hops ▸ hmono⟩
  obtain ⟨t1, hinv⟩ := runOps_inv ops emptyStore 0 h0 hch
  intro sid
  unfold sessionHist
  cases hget : (runOps emptyStore ops).get sid with
  | none => exact List.Pairwise.nil
  | some sess =>
      exact (hinv (sid, sess) (assocLookup_mem _ _ _ hget)).1

/-- Witness for C3: the demonstration call sequence with clock readings
1, 2, 5, 6, 9 yields a sorted history for session `"abc123"`. -/
theorem addStroke_histories_sorted_witness :
    histSorted (sessionHist (runOps emptyStore demoOps) "abc123") :=
  addStroke_histories_sorted demoOps
    (by norm_num [demoOps, List.chain'_cons, List.chain'_singleton]) "abc123"

/-! ### C8: the sliding-window rate limiter -/

theorem rateLimitCheck_single_pass (prev : List Nat) (t : Nat)
    (hkeep : ∀ s ∈ prev, t - s < RATE_LIMIT_WINDOW)
    (hlen : prev.length < MAX_STROKES_PER_WINDOW) :
    rateLimitCheck ⟨[("userA", prev)]⟩ rlProbeCtx t
      = (⟨[("userA", prev ++ [t])]⟩, rlProbeCtx) := by
  have hfil : recentOf prev t = prev := by
    unfold recentOf
    apply List.filter_eq_self.mpr
    intro s hs
    simpa using hkeep s hs
  have hnot : ¬ MAX_STROKES_PER_WINDOW ≤ prev.length := Nat.not_le.mpr hlen
  unfold rateLimitCheck
  simp [rlProbeCtx, assocLookup, hfil, hnot, setCount, assocUpdate]

theorem rateLimitCheck_single_reject (prev : List Nat) (t : Nat)
    (hkeep : ∀ s ∈ prev, t - s < RATE_LIMIT_WINDOW)
    (hlen : MAX_STROKES_PER_WINDOW ≤ prev.length) :
    rateLimitCheck ⟨[("userA", prev)]⟩ rlProbeCtx t
      = (⟨[("userA", prev)]⟩,
         { rlProbeCtx with
             stopped := true,
             error := some "Rate limit exceeded. Please slow down." }) := by
  have hfil : recentOf prev t = prev := by
    unfold recentOf
    apply List.filter_eq_self.mpr
    intro s hs
    simpa using hkeep s hs
  unfold rateLimitCheck
  simp [rlProbeCtx, assocLookup, hfil, hlen]

theorem rateLimitCheck_single_reset (prev : List Nat) (t : Nat)
    (hexp : ∀ s ∈ prev, RATE_LIMIT_WINDOW ≤ t - s) :
    (rateLimitCheck ⟨[("userA", prev)]⟩ rlProbeCtx t).2.stopped = false := by
  have hfil : recentOf prev t = [] := by
    unfold recentOf
    apply List.filter_eq_nil_iff.mpr
    intro s hs
    simpa using Nat.not_lt.mpr (hexp s hs)
  have hnot : ¬ MAX_STROKES_PER_WINDOW ≤ ([] : List Nat).length := by
    simp [MAX_STROKES_PER_WINDOW]
  unfold rateLimitCheck
  simp [rlProbeCtx, assocLookup, hfil, hnot, MAX_STROKES_PER_WINDOW]

theorem runCalls_all_pass (times : List Nat) : ∀ prev : List Nat,
    (∀ t ∈ times, ∀ s ∈ prev ++ times, t - s < RATE_LIMIT_WINDOW) →
    prev.length + times.length ≤ MAX_STROKES_PER_WINDOW →
    runCalls ⟨[("userA", prev)]⟩ times
      = (⟨[("userA", prev ++ times)]⟩, List.replicate times.length false) := by
  induction times with
  | nil =>
      intro prev _ _
      simp [runCalls]
  | cons t ts ih =>
      intro prev hmut hlen
      have hkeep : ∀ s ∈ prev, t - s < RATE_LIMIT_WINDOW := fun s hs =>
        hmut t (List.mem_cons_self t ts) s (List.mem_append_left _ hs)
      have hlen1 : prev.length < MAX_STROKES_PER_WINDOW := by
        simp only [List.length_cons] at hlen
        omega
      have hmut' : ∀ t' ∈ ts, ∀ s ∈ (prev ++ [t]) ++ ts, t' - s < RATE_LIMIT_WINDOW := by
        intro t' ht' s hsm
        apply hmut t' (List.mem_cons_of_mem _ ht')
        simpa [List.append_assoc] using hsm
      have hlen' : (prev ++ [t]).length + ts.length ≤ MAX_STROKES_PER_WINDOW := by
        simp only [List.length_append, List.length_cons, List.length_nil] at hlen ⊢
        omega
      simp only [runCalls, rateLimitCheck_single_pass prev t hkeep hlen1,
        ih (prev ++ [t]) hmut' hlen']
      simp [rlProbeCtx, List.append_assoc, List.replicate_succ]

theorem runCalls_empty_eq (t : Nat) (ts : List Nat) :
    runCalls emptyRL (t :: ts) = runCalls ⟨[("userA", [])]⟩ (t :: ts) := by
  have h1 : rateLimitCheck emptyRL rlProbeCtx t
      = (⟨[("userA", [t])]⟩, rlProbeCtx) := rfl
  have h2 : rateLimitCheck ⟨[("userA", [])]⟩ rlProbeCtx t
      = (⟨[("userA", [t])]⟩, rlProbeCtx) := rfl
  simp only [runCalls, h1, h2]

/-- C8.  For one user under window `W = 1000ms` and limit `L = 100`: 100
`stroke:before` invocations whose instants all fall inside one 999ms span
(from a fresh limiter) all pass — every recorded `stopped` flag is
`false`; a 101st invocation inside the same span is stopped with the
rejection message and records nothing — the stored map is returned
unchanged; and an invocation after the window has fully elapsed past every
recorded instant passes again. -/
theorem rateLimiter_sliding_window (times : List Nat) (m t101 tR : Nat)
    (hlen : times.length = 100)
    (hwin : ∀ t ∈ times, m ≤ t ∧ t ≤ m + 999)
    (h101a : m ≤ t101) (h101b : t101 ≤ m + 999)
    (hreset : ∀ t ∈ times, t + 1000 ≤ tR) :
    (runCalls emptyRL times).2 = List.replicate 100 false
    ∧ (rateLimitCheck (runCalls emptyRL times).1 rlProbeCtx t101).2.stopped = true
    ∧ (rateLimitCheck (runCalls emptyRL times).1 rlProbeCtx t101).2.error
        = some "Rate limit exceeded. Please slow down."
    ∧ (rateLimitCheck (runCalls emptyRL times).1 rlProbeCtx t101).1
        = (runCalls emptyRL times).1
    ∧ (rateLimitCheck (runCalls emptyRL times).1 rlProbeCtx tR).2.stopped = false := by
  have hmut : ∀ t ∈ times, ∀ s ∈ ([] : List Nat) ++ times, t - s < RATE_LIMIT_WINDOW := by
    intro t ht s hs
    simp only [List.nil_append] at hs
    have h1 := hwin t ht
    have h2 := hwin s hs
    unfold RATE_LIMIT_WINDOW
    omega
  have hrun : runCalls emptyRL times
      = (⟨[("userA", times)]⟩, List.replicate times.length false) := by
    obtain ⟨t0, ts0, rfl⟩ : ∃ a l, times = a :: l := by
      cases times with
      | nil => simp at hlen
      | cons a l => exact ⟨a, l, rfl⟩
    rw [runCalls_empty_eq]
    simpa using runCalls_all_pass (t0 :: ts0) [] hmut (by simp [hlen, MAX_STROKES_PER_WINDOW])
  have hkeep101 : ∀ s ∈ times, t101 - s < RATE_LIMIT_WINDOW := by
    intro s hs
    have h2 := hwin s hs
    unfold RATE_LIMIT_WINDOW
    omega
  have hfull : MAX_STROKES_PER_WINDOW ≤ times.length := by
    simp [hlen, MAX_STROKES_PER_WINDOW]
  have hrej := rateLimitCheck_single_reject times t101 hkeep101 hfull
  have hexp : ∀ s ∈ times, RATE_LIMIT_WINDOW ≤ tR - s := by
    intro s hs
    have := hreset s hs
    unfold RATE_LIMIT_WINDOW
    omega
  refine ⟨?_, ?_, ?_, ?_, ?_⟩
  · rw [hrun, hlen]
  · rw [hrun, hrej]
  · rw [hrun, hrej]
  · rw [hrun, hrej]
  · rw [hrun]
    exact rateLimitCheck_single_reset times tR hexp

/-- Witness for C8: instants 0..99, the 101st attempt at 999, the reset
probe at 1099. -/
theorem rateLimiter_sliding_window_witness :
    (runCalls emptyRL (List.range 100)).2 = List.replicate 100 false
    ∧ (rateLimitCheck (runCalls emptyRL (List.range 100)).1 rlProbeCtx 999).2.stopped = true
    ∧ (rateLimitCheck (runCalls emptyRL (List.range 100)).1 rlProbeCtx 999).2.error
        = some "Rate limit exceeded. Please slow down."
    ∧ (rateLimitCheck (runCalls emptyRL (List.range 100)).1 rlProbeCtx 999).1
        = (runCalls emptyRL (List.range 100)).1
    ∧ (rateLimitCheck (runCalls emptyRL (List.range 100)).1 rlProbeCtx 1099).2.stopped = false :=
  rateLimiter_sliding_window (List.range 100) 0 999 1099
    (by simp) (by decide) (by decide) (by decide) (by decide)

/-! ### C4: identity fields are server-assigned, never trusted from the
client -/

theorem valVerdict_stripTs (s : Stroke) :
    valVerdict (stripTs s) = valVerdict s := by
  cases s
  rfl

theorem setTs_stripTs (s : Stroke) (t : Option Nat) :
    ({ s with serverTimestamp := t } : Stroke)
      = { stripTs s with serverTimestamp := t } := by
  cases s
  rfl

theorem addStroke_congr (st : SessionStore) (sid : String) (s1 s2 : Stroke)
    (now : Nat)
    (h : ({ s1 with serverTimestamp := some now } : Stroke)
      = { s2 with serverTimestamp := some now }) :
    st.addStroke sid s1 now = st.addStroke sid s2 now := by
  unfold SessionStore.addStroke
  simp only [h]

/-- Closed form of one stroke-event invocation under the shipped before
chain (validation, then rate limiting). -/
theorem handleStroke_standard_eq (rl : RateLimitState) (after : List Handler)
    (conn : Connection) (st : SessionStore) (d : Stroke) (now : Nat)
    (sid : String) (hcs : conn.currentSession = some sid) :
    handleStroke (standardManager rl now after) conn st d now
      = match valVerdict (sanitize conn sid d) with
        | some msg => (st, [.errorTo conn.userId msg])
        | none =>
            if MAX_STROKES_PER_WINDOW
                ≤ (recentOf ((assocLookup rl.userStrokeCounts conn.userId).getD [])
                    now).length then
              (st, [.errorTo conn.userId "Rate limit exceeded. Please slow down."])
            else
              match st.addStroke sid (sanitize conn sid d) now with
              | .error msg => (st, [.errorTo conn.userId msg])
              | .ok st2 =>
                  (st2, [.strokeBroadcast sid
                    { sanitize conn sid d with serverTimestamp := some now }]) := by
  unfold handleStroke
  rw [hcs]
  cases hv : valVerdict (sanitize conn sid d) with
  | some msg =>
      simp [standardManager, execute, validateStroke, initCtx, hv, failCtx]
  | none =>
      by_cases hr : MAX_STROKES_PER_WINDOW
          ≤ (recentOf ((assocLookup rl.userStrokeCounts conn.userId).getD [])
              now).length
      · simp [standardManager, execute, validateStroke, initCtx, hv,
          rateLimitHandler, rateLimitCheck, hr]
      · simp only [standardManager, execute, validateStroke, initCtx, hv,
          rateLimitHandler, rateLimitCheck, hr]
        simp [hr]

/-- C4.  Under the shipped plugin chain, the stroke the pipeline persists
and broadcasts carries `userId` equal to the connection's server-assigned
identity, `sessionId` equal to the connection's current session, and
`serverTimestamp` assigned by the registry at persistence time; and two
invocations whose payloads differ only in the client-supplied `userId`,
`sessionId`, or `serverTimestamp` fields produce identical stores and
identical emissions. -/
theorem stroke_identity_server_authoritative (rl : RateLimitState)
    (after : List Handler) (conn : Connection) (st : SessionStore)
    (d1 d2 : Stroke) (now : Nat)
    (hid : d1.id = d2.id) (htool : d1.tool = d2.tool)
    (hpts : d1.points = d2.points) (hcol : d1.color = d2.color)
    (hlw : d1.lineWidth = d2.lineWidth) :
    handleStroke (standardManager rl now after) conn st d1 now
      = handleStroke (standardManager rl now after) conn st d2 now
    ∧ (∀ sid s, Emission.strokeBroadcast sid s
          ∈ (handleStroke (standardManager rl now after) conn st d1 now).2 →
        s.userId = conn.userId ∧ s.sessionId = some sid
          ∧ s.serverTimestamp = some now
          ∧ sessionHist (handleStroke (standardManager rl now after) conn st d1 now).1 sid
              = sessionHist st sid ++ [s]) := by
  constructor
  · cases hcs : conn.currentSession with
    | none =>
        unfold handleStroke
        rw [hcs]
    | some sid =>
        have hstrip : stripTs (sanitize conn sid d1) = stripTs (sanitize conn sid d2) := by
          cases d1
          cases d2
          simp_all [sanitize, stripTs]
        have hverd : valVerdict (sanitize conn sid d1) = valVerdict (sanitize conn sid d2) := by
          rw [← valVerdict_stripTs, hstrip, valVerdict_stripTs]
        have hstamp : ({ sanitize conn sid d1 with serverTimestamp := some now } : Stroke)
            = { sanitize conn sid d2 with serverTimestamp := some now } := by
          rw [setTs_stripTs, hstrip, ← setTs_stripTs]
        rw [handleStroke_standard_eq rl after conn st d1 now sid hcs,
          handleStroke_standard_eq rl after conn st d2 now sid hcs, hverd]
        cases hv : valVerdict (sanitize conn sid d2) with
        | some msg => rfl
        | none =>
            by_cases hr : MAX_STROKES_PER_WINDOW
                ≤ (recentOf ((assocLookup rl.userStrokeCounts conn.userId).getD [])
                    now).length
            · simp [hr]
            · simp only [if_neg hr]
              rw [addStroke_congr st sid (sanitize conn sid d1) (sanitize conn sid d2) now hstamp,
                hstamp]
  · intro sid s hmem
    cases hcs : conn.currentSession with
    | none =>
        simp [handleStroke, hcs] at hmem
    | some sid0 =>
        rw [handleStroke_standard_eq rl after conn st d1 now sid0 hcs] at hmem ⊢
        cases hv : valVerdict (sanitize conn sid0 d1) with
        | some msg =>
            rw [hv] at hmem
            simp at hmem
        | none =>
            rw [hv] at hmem
            dsimp only at hmem ⊢
            by_cases hr : MAX_STROKES_PER_WINDOW
                ≤ (recentOf ((assocLookup rl.userStrokeCounts conn.userId).getD [])
                    now).length
            · rw [if_pos hr] at hmem
              simp at hmem
            · rw [if_neg hr] at hmem ⊢
              cases hadd : st.addStroke sid0 (sanitize conn sid0 d1) now with
              | error msg =>
                  rw [hadd] at hmem
                  simp at hmem
              | ok st2 =>
                  rw [hadd] at hmem
                  dsimp only at hmem ⊢
                  simp only [List.mem_singleton, Emission.strokeBroadcast.injEq] at hmem
                  obtain ⟨hsid, hs⟩ := hmem
                  subst hsid
                  subst hs
                  refine ⟨by simp [sanitize], by simp [sanitize], rfl, ?_⟩
                  unfold SessionStore.addStroke at hadd
                  cases hget : st.get sid with
                  | none =>
                      rw [hget] at hadd
                      cases hadd
                  | some sess =>
                      rw [hget] at hadd
                      have hget' : assocLookup st.sessions sid = some sess := hget
                      injection hadd with hst2
                      subst hst2
                      unfold sessionHist SessionStore.get
                      rw [assocLookup_update_self st.sessions sid _ sess hget', hget']

/-- Witness for C4: two payloads differing only in spoofed `userId`,
`sessionId` and `serverTimestamp` lead to identical outcomes. -/
theorem stroke_identity_server_authoritative_witness :
    handleStroke (standardManager emptyRL 50 []) demoConn demoStore demoStroke 50
      = handleStroke (standardManager emptyRL 50 []) demoConn demoStore
          demoStrokeSpoofed 50 :=
  (stroke_identity_server_authoritative emptyRL [] demoConn demoStore
    demoStroke demoStrokeSpoofed 50 rfl rfl rfl rfl rfl).1

/-! ### C9: the reconnection protocol drops the strokes missed offline -/

/-- C9 (divergence witness).  At the failing input — a client with
watermark 5 and offline queue `[queued1, queued2]` whose session holds a
stroke stamped 10, reconnecting at clock time 100 — the code transmits the
queue in order but applies no missed stroke at all: `joinSession` has
overwritten the watermark with the reconnect-time clock reading before
`requestSync` uses it, so the server is asked for strokes after 100 and the
stroke stamped 10 (which the claim, the spec and the code's own comments
say must be applied, since 10 > 5) never reaches the canvas. -/
theorem reconnection_drops_missed_strokes :
    reconnectClient.lastKnownTimestamp < tsOf missedStroke
    ∧ missedStroke ∈ sessionHist reconnectStore "abc123"
    ∧ (handleReconnection reconnectClient reconnectStore 100).1.canvas = []
    ∧ (handleReconnection reconnectClient reconnectStore 100).2 = [queued1, queued2] := by
  refine ⟨by decide, by decide, rfl, rfl⟩

/-! ### C7: duplicate create fails and mutates nothing -/

/-- C7.  Creating a session whose id is already present fails with the
duplicate-session error and returns the store unchanged (so every session's
history and membership after both calls equal those after the first call
alone); creating a fresh id installs an empty session, returns it, and a
second create of the same id then leaves the new store untouched. -/
theorem create_duplicate_spec (st : SessionStore) (sid : String) (t1 t2 : Nat) :
    ((st.get sid).isSome →
        st.create sid t2 = (.err ("Session already exists: " ++ sid), st))
    ∧ (st.get sid = none →
        (st.create sid t1).1 = CreateResult.ok (newSession sid t1)
          ∧ (st.create sid t1).2.get sid = some (newSession sid t1)
          ∧ ((st.create sid t1).2.create sid t2).2 = (st.create sid t1).2) := by
  constructor
  · intro hsome
    simp [SessionStore.create, hsome]
  · intro hnone
    have hnone' : assocLookup st.sessions sid = none := hnone
    have hlook :
        assocLookup (st.sessions ++ [(sid, newSession sid t1)]) sid
          = some (newSession sid t1) :=
      assocLookup_append_self st.sessions sid _ hnone
    refine ⟨?_, ?_, ?_⟩
    · simp [SessionStore.create, SessionStore.get, hnone']
    · simp [SessionStore.create, SessionStore.get, hnone', hlook]
    · simp [SessionStore.create, SessionStore.get, hnone', hlook]

/-- Witness for C7: both branches at concrete inputs. -/
theorem create_duplicate_spec_witness :
    (emptyStore.create "abc" 1).1 = CreateResult.ok (newSession "abc" 1)
      ∧ (emptyStore.create "abc" 1).2.get "abc" = some (newSession "abc" 1)
      ∧ ((emptyStore.create "abc" 1).2.create "abc" 2).2 = (emptyStore.create "abc" 1).2 :=
  (create_duplicate_spec emptyStore "abc" 1 2).2 rfl

end CollabDraw
